import Mathlib

/-!
Verification of the multi-strategy OCR extraction engine of
`OCR/ocr_core/app/ocr_engine.py` (class `SynapseOCRv3_2_0`).

The Python engine is shallowly embedded here.  External effects
(Tesseract OCR calls, PDF rasterization, image loading) are modelled as
explicit world data: each OCR invocation's outcome is given as an
`Except String _` value, where `Except.error` stands for a raised Python
exception, and PDF rasterization is given by a page count (0 pages models
a corrupted / unconvertible PDF, since `_convert_pdf_to_images` returns
`[]` both when `pdf2image` yields nothing and when it raises).
Python floats are modelled as rationals; Python `int` as `Int`/`Nat`.
Wall-clock `processing_time` is not modelled.
-/

/-- Python's `\s` / `str.strip()` whitespace, restricted to ASCII. -/
def isSpacePy (c : Char) : Bool :=
  c = ' ' || c = '\t' || c = '\n' || c = '\x0d' || c = '\x0b' || c = '\x0c'

/-- Python `str.strip()` on a character list. -/
def pyStrip (s : List Char) : List Char :=
  ((s.dropWhile isSpacePy).reverse.dropWhile isSpacePy).reverse

/-- Python `str.strip()` on a string. -/
def pyStripStr (s : String) : String :=
  String.mk (pyStrip s.data)

/-- One row of `pytesseract.image_to_data(..., output_type=Output.DICT)`:
the recognized token text and its integer confidence.  The spatial fields
(`left`, `top`, `width`, `height`) and hierarchy indices are carried through
the engine unchanged and are elided; a bounding-box entry in the result is
represented by the token it was built from. -/
structure Token where
  conf : Int
  text : String
deriving Repr, DecidableEq

/-- Outcome of one (strategy, config) grid cell on the Persian/bilingual
path: the pair (`image_to_string` text, `image_to_data` tokens), or a raised
exception. -/
abbrev CellOutcome := Except String (String × List Token)

/-- Outcome of one (approach, config) grid cell on the enhanced-English
path, which only calls `image_to_data`. -/
abbrev EngCellOutcome := Except String (List Token)

/-- In Python, an `int` compares unequal to every `str`, so the guard
`data['conf'][i] != '-1'` in the source (lines 307 and 478) is always true
for the numeric `conf` values returned by `Output.DICT`. -/
def pyIntNeStr (_ : Int) (_ : String) : Bool :=
  true

/-- The token filter of the grid loops (lines 306-308 / 477-479):
`data['conf'][i] != '-1' and data['text'][i].strip()`. -/
def keptTokens (ts : List Token) : List Token :=
  ts.filter fun t => pyIntNeStr t.conf "-1" && pyStripStr t.text != ""

/-- `avg_conf = sum(confidences) / len(confidences) if confidences else 0`
(line 324), on the 0-100 scale. -/
def attemptAvg (ts : List Token) : ℚ :=
  let ks := keptTokens ts
  if ks.isEmpty then 0 else ((ks.map fun t => (t.conf : ℚ)).sum) / (ks.length : ℚ)

/-- The running best of the grid search: `best_text`, `best_confidence`,
`best_strategy`, `best_bounding_boxes` (lines 273-276 / 444-447). -/
structure BestResult where
  text : String
  conf : ℚ
  strategy : String
  boxes : List Token
deriving Repr, DecidableEq

/-- Initial best state: `best_text = ""`, `best_confidence = 0`,
`best_strategy = ""`, `best_bounding_boxes = []`. -/
def bestInit : BestResult :=
  ⟨"", 0, "", []⟩

/-- `f"S:{img_idx + 1}|C:{config_idx + 1}"` (line 330 / 505). -/
def strategyStr (i j : Nat) : String :=
  "S:" ++ toString (i + 1) ++ "|C:" ++ toString (j + 1)

/-- The nested `for img_idx ... for config_idx ...` loops enumerate the
grid in (candidate-index, config-index) priority order; this flattens the
grid into that order, tagging each cell with its 0-based indices. -/
def gridAttempts {α : Type} (cells : List (List α)) : List (Nat × Nat × α) :=
  (cells.enum.map fun p => p.2.enum.map fun q => (p.1, q.1, q.2)).flatten

/-- Persian/bilingual-path update for one grid cell (lines 286-337):
a raised exception is caught and the attempt skipped (`continue`);
otherwise `if avg_conf > best_confidence:` replace the whole best tuple. -/
def persianCellStep (s : BestResult) (a : Nat × Nat × CellOutcome) : BestResult :=
  match a.2.2 with
  | Except.error _ => s
  | Except.ok (text, toks) =>
      let avg := attemptAvg toks
      if s.conf < avg then ⟨text, avg, strategyStr a.1 a.2.1, keptTokens toks⟩ else s

/-- The whole Persian/bilingual grid search folded in priority order. -/
def persianFold (cells : List (List CellOutcome)) : BestResult :=
  (gridAttempts cells).foldl persianCellStep bestInit

/-- `' '.join([word for word, conf in zip(data['text'], data['conf'])
if conf != -1 and word.strip()])` (lines 499-500).  Note this filter
compares the integer `conf` to the integer `-1` (unlike the box filter). -/
def engJoinText (toks : List Token) : String :=
  String.intercalate " " ((toks.filter fun t => t.conf != -1 && pyStripStr t.text != "").map fun t => t.text)

/-- `avg_conf = sum(confidences) / len(confidences)` of the English grid
loop (line 496), evaluated only when the kept-token list is nonempty. -/
def engAvg (toks : List Token) : ℚ :=
  let ks := keptTokens toks
  ((ks.map fun t => (t.conf : ℚ)).sum) / (ks.length : ℚ)

/-- Enhanced-English-path update for one grid cell (lines 461-511):
skipped on exception; guarded by `if confidences:`; the best tuple is
replaced only `if avg_conf > best_confidence and len(text) > 50`. -/
def engCellStep (s : BestResult) (a : Nat × Nat × EngCellOutcome) : BestResult :=
  match a.2.2 with
  | Except.error _ => s
  | Except.ok toks =>
      let ks := keptTokens toks
      if ks.isEmpty then s
      else
        let text := engJoinText toks
        if s.conf < engAvg toks ∧ 50 < text.length then
          ⟨text, engAvg toks, strategyStr a.1 a.2.1, ks⟩
        else s

/-- The token list of a grid-cell outcome (empty for a raised exception),
used to state per-token hypotheses uniformly. -/
def attemptTokens : CellOutcome → List Token
  | Except.error _ => []
  | Except.ok (_, toks) => toks

/-- The token list of an English grid-cell outcome. -/
def engAttemptTokens : EngCellOutcome → List Token
  | Except.error _ => []
  | Except.ok toks => toks

/-- The whole enhanced-English grid search folded in priority order. -/
def engFold (cells : List (List EngCellOutcome)) : BestResult :=
  (gridAttempts cells).foldl engCellStep bestInit

/-! ## Language detection (`detect_language_fast`, lines 132-210) -/

/-- Characters counted by `re.findall(r'[؀-ۿ]', word)`. -/
def isPersianRange (c : Char) : Bool :=
  0x600 ≤ c.toNat && c.toNat ≤ 0x6FF

/-- Characters counted by `re.findall(r'[A-Za-z]', word)`. -/
def isLatinLetter (c : Char) : Bool :=
  ('A' ≤ c && c ≤ 'Z') || ('a' ≤ c && c ≤ 'z')

/-- The confidence-weighted accumulation loop (lines 165-188): for each TSV
row, skip empty words; a row's confidence is the parsed float, defaulting
to 30.0 when parsing fails (`none`) or when negative; the weight is
`conf/100` clamped to [0, 1]; each script's total accumulates
`char_count * weight`.  A row is `(parsed confidence, word)`. -/
def detectTotals (rows : List (Option ℚ × String)) : ℚ × ℚ :=
  rows.foldl
    (fun acc row =>
      let word := pyStripStr row.2
      if word = "" then acc
      else
        let conf : ℚ := match row.1 with
          | none => 30
          | some c => if c < 0 then 30 else c
        let weight := max 0 (min 1 (conf / 100))
        (acc.1 + ((word.data.filter isPersianRange).length : ℚ) * weight,
         acc.2 + ((word.data.filter isLatinLetter).length : ℚ) * weight))
    (0, 0)

/-- The decision rule on the accumulated totals (lines 190-206). -/
def detectDecision (tp te : ℚ) : String :=
  if tp + te = 0 then "fas+eng"
  else if 0 < te ∧ tp = 0 then "eng"
  else if 0 < tp ∧ te = 0 then "fas"
  else if 0.60 ≤ tp / (tp + te) then "fas"
  else if 0.55 ≤ te / (tp + te) then "eng"
  else "fas+eng"

/-- World visible to `detect_language_fast`: whether the path ends in
`.pdf`, how many pages `_convert_pdf_to_images` yields (0 models a
corrupted PDF or a conversion exception, both of which give `[]`), whether
the computed center crop is empty, and the outcome of the
`image_to_data` call (rows already split into (confidence, word), with
`Except.error` standing for any exception raised inside the `try`). -/
structure DetectWorld where
  pdfInput : Bool
  pdfPages : Nat
  cropEmpty : Bool
  ocr : Except String (List (Option ℚ × String))

/-- `detect_language_fast` (lines 132-210).  The whole body is wrapped in
`try/except` returning `'fas+eng'`; an empty PDF conversion and an empty
crop also return `'fas+eng'` early. -/
def detect_language_fast (w : DetectWorld) : String :=
  if w.pdfInput && w.pdfPages == 0 then "fas+eng"
  else if w.cropEmpty then "fas+eng"
  else
    match w.ocr with
    | Except.error _ => "fas+eng"
    | Except.ok rows =>
        let t := detectTotals rows
        detectDecision t.1 t.2

/-! ## Claim C6 — the language decision rule -/

/-- C6: with both weighted totals nonzero, detection returns PERSIAN
(`"fas"`) exactly when the Persian share is ≥ 0.60, otherwise ENGLISH
(`"eng"`) exactly when the English share is ≥ 0.55, otherwise MIXED
(`"fas+eng"`); both totals zero gives MIXED, and a single nonzero total
gives that script's language. -/
theorem c6_detect_decision_rule (tp te : ℚ) (htp : 0 ≤ tp) (hte : 0 ≤ te) :
    (tp = 0 → te = 0 → detectDecision tp te = "fas+eng")
    ∧ (0 < tp → te = 0 → detectDecision tp te = "fas")
    ∧ (tp = 0 → 0 < te → detectDecision tp te = "eng")
    ∧ (0 < tp → 0 < te →
        ((detectDecision tp te = "fas" ↔ 0.60 ≤ tp / (tp + te))
         ∧ (detectDecision tp te = "eng" ↔
             ¬ 0.60 ≤ tp / (tp + te) ∧ 0.55 ≤ te / (tp + te))
         ∧ (detectDecision tp te = "fas+eng" ↔
             ¬ 0.60 ≤ tp / (tp + te) ∧ ¬ 0.55 ≤ te / (tp + te)))) := by
  refine ⟨?_, ?_, ?_, ?_⟩
  · intro h1 h2
    simp [detectDecision, h1, h2]
  · intro h1 h2
    have hsum : tp + te ≠ 0 := by
      rw [h2, add_zero]; exact ne_of_gt h1
    simp [detectDecision, hsum, h2, not_lt.mpr (le_refl (0 : ℚ)), h1,
      ne_of_gt h1]
  · intro h1 h2
    have hsum : tp + te ≠ 0 := by
      rw [h1, zero_add]; exact ne_of_gt h2
    simp [detectDecision, hsum, h1, h2, ne_of_gt h2]
  · intro h1 h2
    have hsum : tp + te ≠ 0 := ne_of_gt (add_pos h1 h2)
    have hne2 : ¬ (0 < te ∧ tp = 0) := fun h => absurd h.2 (ne_of_gt h1)
    have hne3 : ¬ (0 < tp ∧ te = 0) := fun h => absurd h.2 (ne_of_gt h2)
    by_cases hfas : 0.60 ≤ tp / (tp + te)
    · simp [detectDecision, hsum, hne2, hne3, hfas]
    · by_cases heng : 0.55 ≤ te / (tp + te)
      · simp [detectDecision, hsum, hne2, hne3, hfas, heng]
      · simp [detectDecision, hsum, hne2, hne3, hfas, heng]

/-- Witness for C6 at the concrete totals (3, 2): the Persian share is
exactly 0.6, so detection returns `"fas"`. -/
theorem c6_detect_decision_rule_witness : detectDecision 3 2 = "fas" :=
  (((c6_detect_decision_rule 3 2 (by norm_num) (by norm_num)).2.2.2
    (by norm_num) (by norm_num)).1).mpr (by norm_num)

/-! ## Claim C7 — detection never propagates an exception -/

/-- C7: language detection never propagates an exception: whenever the
OCR/cropping machinery raises (`Except.error`), or the PDF yields no pages,
or the crop is empty, `detect_language_fast` returns MIXED (`"fas+eng"`)
instead of failing the run. -/
theorem c7_detect_never_propagates (w : DetectWorld) :
    (∀ e, w.ocr = Except.error e → detect_language_fast w = "fas+eng")
    ∧ (w.pdfInput = true → w.pdfPages = 0 → detect_language_fast w = "fas+eng")
    ∧ (w.cropEmpty = true → detect_language_fast w = "fas+eng") := by
  refine ⟨?_, ?_, ?_⟩
  · intro e he
    unfold detect_language_fast
    split
    · rfl
    · split
      · rfl
      · rw [he]
  · intro h1 h2
    unfold detect_language_fast
    rw [h1, h2]
    rfl
  · intro h
    unfold detect_language_fast
    rw [h]
    split
    · rfl
    · rfl

/-- Witness for C7 at a concrete world whose OCR call raises. -/
theorem c7_detect_never_propagates_witness :
    detect_language_fast ⟨false, 1, false, Except.error "tesseract failed"⟩ = "fas+eng" :=
  (c7_detect_never_propagates ⟨false, 1, false, Except.error "tesseract failed"⟩).1
    "tesseract failed" rfl

/-! ## Text normalization (`normalize_persian_text`, lines 558-604, and
`normalize_english_text`, lines 606-620)

The Persian-script characters involved are written via `Char.ofNat` with
their code points, to keep the right-to-left glyphs unambiguous. -/

/-- ي ARABIC LETTER YEH. -/
def chArabicYeh : Char := Char.ofNat 0x064A
/-- ى ARABIC LETTER ALEF MAKSURA. -/
def chAlefMaksura : Char := Char.ofNat 0x0649
/-- ك ARABIC LETTER KAF. -/
def chArabicKaf : Char := Char.ofNat 0x0643
/-- ة ARABIC LETTER TEH MARBUTA. -/
def chTehMarbuta : Char := Char.ofNat 0x0629
/-- ی ARABIC LETTER FARSI YEH. -/
def chFarsiYeh : Char := Char.ofNat 0x06CC
/-- ک ARABIC LETTER KEHEH. -/
def chKeheh : Char := Char.ofNat 0x06A9
/-- ه ARABIC LETTER HEH. -/
def chHeh : Char := Char.ofNat 0x0647
/-- ا ARABIC LETTER ALEF. -/
def chAlef : Char := Char.ofNat 0x0627
/-- م MEEM. -/
def chMeem : Char := Char.ofNat 0x0645
/-- و WAW. -/
def chWaw : Char := Char.ofNat 0x0648
/-- ر REH. -/
def chReh : Char := Char.ofNat 0x0631
/-- د DAL. -/
def chDal : Char := Char.ofNat 0x062F
/-- ن NOON. -/
def chNoon : Char := Char.ofNat 0x0646
/-- ل LAM. -/
def chLam : Char := Char.ofNat 0x0644
/-- ب BEH. -/
def chBeh : Char := Char.ofNat 0x0628
/-- ت TEH. -/
def chTeh : Char := Char.ofNat 0x062A
/-- س SEEN. -/
def chSeen : Char := Char.ofNat 0x0633
/-- ز ZAIN. -/
def chZain : Char := Char.ofNat 0x0632
/-- ج JEEM. -/
def chJeem : Char := Char.ofNat 0x062C
/-- چ TCHEH. -/
def chTcheh : Char := Char.ofNat 0x0686
/-- پ PEH. -/
def chPeh : Char := Char.ofNat 0x067E
/-- ش SHEEN. -/
def chSheen : Char := Char.ofNat 0x0634

/-- The ten Eastern-Arabic digits ٠-٩ (U+0660-U+0669). -/
def easternDigits : List Char :=
  (List.range 10).map fun i => Char.ofNat (0x0660 + i)

/-- The ten Persian digits ۰-۹ (U+06F0-U+06F9). -/
def persianDigits : List Char :=
  (List.range 10).map fun i => Char.ofNat (0x06F0 + i)

/-- ZERO WIDTH NON-JOINER. -/
def zwnj : Char := Char.ofNat 0x200C
/-- ZERO WIDTH JOINER. -/
def zwj : Char := Char.ofNat 0x200D
/-- ZERO WIDTH SPACE. -/
def zwsp : Char := Char.ofNat 0x200B

/-- Python's `\d` is any Unicode decimal digit; restricted to the digit
characters that occur in this engine (ASCII, Persian, Eastern-Arabic). -/
def isDigitPy (c : Char) : Bool :=
  ('0' ≤ c && c ≤ '9') || (0x6F0 ≤ c.toNat && c.toNat ≤ 0x6F9)
    || (0x660 ≤ c.toNat && c.toNat ≤ 0x669)

/-- Python `text.replace(pat, repl)`: scan left to right, replace
non-overlapping occurrences, never rescanning replacement text.  The fuel
argument bounds recursion; `pyReplace` supplies `s.length`, which is enough
because every step consumes at least one input character. -/
def pyReplaceAux (pat repl : List Char) : Nat → List Char → List Char
  | _, [] => []
  | 0, s => s
  | fuel + 1, c :: rest =>
      if pat.isPrefixOf (c :: rest) then
        repl ++ pyReplaceAux pat repl fuel ((c :: rest).drop pat.length)
      else
        c :: pyReplaceAux pat repl fuel rest

/-- Python `s.replace(pat, repl)`. -/
def pyReplace (s pat repl : List Char) : List Char :=
  pyReplaceAux pat repl s.length s

/-- A `for old, new in table.items(): text = text.replace(old, new)` loop
over a table of string pairs, in insertion order. -/
def applyStrTable (tbl : List (List Char × List Char)) (s : List Char) : List Char :=
  tbl.foldl (fun acc p => pyReplace acc p.1 p.2) s

/-- The same loop for a table whose keys and values are all single
characters: `text.replace(old, new)` with one-character `old` and `new` is
exactly the character-wise map replacing `old` by `new`. -/
def applyCharTable (tbl : List (Char × Char)) (s : List Char) : List Char :=
  tbl.foldl (fun acc p => acc.map fun c => if c = p.1 then p.2 else c) s

/-- Step 1 table `replacements` (lines 561-566), in insertion order. -/
def replacementsTable : List (Char × Char) :=
  [(chArabicYeh, chFarsiYeh), (chAlefMaksura, chFarsiYeh), (chArabicKaf, chKeheh),
   (chTehMarbuta, chHeh),
   ('Y', chFarsiYeh), ('K', chKeheh), ('o', Char.ofNat 0x6F0), ('O', Char.ofNat 0x6F0)]
  ++ (List.range 10).map fun i => (Char.ofNat (0x0660 + i), Char.ofNat (0x06F0 + i))

/-- Step 2 table `character_merging_fixes` (lines 572-577), in insertion
order; each entry is a literal substring replacement. -/
def characterMergingFixes : List (List Char × List Char) :=
  [([chMeem, chFarsiYeh, ' ', chWaw, chFarsiYeh, chKeheh],
    [chFarsiYeh, chKeheh, chSheen, chNoon, chBeh, chHeh]),
   ([chMeem, chFarsiYeh, ' ', chFarsiYeh], [chMeem, chFarsiYeh]),
   ([chWaw, ' ', chFarsiYeh], [chWaw, chFarsiYeh]),
   ([chHeh, ' ', chFarsiYeh], [chHeh, chFarsiYeh]),
   ([chReh, ' ', chFarsiYeh], [chReh, chFarsiYeh]),
   ([chDal, ' ', chFarsiYeh], [chDal, chFarsiYeh]),
   ([chNoon, ' ', chFarsiYeh], [chNoon, chFarsiYeh]),
   ([chLam, ' ', chFarsiYeh], [chLam, chFarsiYeh]),
   ([chBeh, ' ', chFarsiYeh], [chBeh, chFarsiYeh]),
   ([chTeh, ' ', chFarsiYeh], [chTeh, chFarsiYeh]),
   ([chSeen, ' ', chFarsiYeh], [chSeen, chFarsiYeh]),
   ([chKeheh, ' ', chFarsiYeh], [chKeheh, chFarsiYeh]),
   ([chZain, ' ', chFarsiYeh], [chZain, chFarsiYeh]),
   ([chJeem, ' ', chFarsiYeh], [chJeem, chFarsiYeh]),
   ([chTcheh, ' ', chFarsiYeh], [chTcheh, chFarsiYeh]),
   ([chPeh, ' ', chFarsiYeh], [chPeh, chFarsiYeh]),
   ([chMeem, ' ', chFarsiYeh], [chMeem, chFarsiYeh]),
   ([' ', ' '], [' ']),
   ([' ', ' ', ' '], [' '])]

/-- Step 4 table `number_fixes` (lines 588-593), in insertion order. -/
def numberFixesTable : List (Char × Char) :=
  ((List.range 10).map fun i => (Char.ofNat (0x06F0 + i), Char.ofNat (0x30 + i)))
  ++ [('O', '0'), ('l', '1'), ('I', '1'), ('Z', '2'), ('S', '5'), ('G', '6'), ('B', '8')]

/-- Step 3a, `re.sub(r'([؀-ۿ]{3,})([؀-ۿ]{3,})', r'\1 \2', text)`
(line 583).  The regex engine matches a maximal Arabic-script run of length
L ≥ 6 starting where the scan meets it: group 1 greedily keeps L−3
characters (backtracking until group 2 can take at least 3), group 2 takes
the final 3, and scanning resumes after the run.  Runs shorter than 6 never
match.  Fuel bounds the recursion; each step consumes ≥ 1 input character. -/
def subA : Nat → List Char → List Char
  | _, [] => []
  | 0, s => s
  | fuel + 1, c :: rest =>
      if isPersianRange c then
        let run := (c :: rest).takeWhile isPersianRange
        let rest' := (c :: rest).drop run.length
        (if 6 ≤ run.length then
           run.take (run.length - 3) ++ ' ' :: run.drop (run.length - 3)
         else run) ++ subA fuel rest'
      else c :: subA fuel rest

/-- Backtracking of `(\d+)([؀-ۿ])` once the scan stands at the
start of a maximal digit run: `\d+` greedily takes the whole run and gives
back one character at a time (j counts the digits kept by group 1), until
the single character required by group 2 — the character right after group
1 — is in the Arabic-script block.  Persian and Eastern-Arabic digits are
both `\d` and in that block, so group 2 can match the run's own last
digits.  Returns the replacement text and the point where scanning
resumes. -/
def subBSplitTry (run rest' : List Char) (j : Nat) : Option (List Char × List Char) :=
  if j + 1 = run.length then
    match rest' with
    | d :: rs => if isPersianRange d then some (run ++ [' ', d], rs) else none
    | [] => none
  else
    let d := run.getD (j + 1) ' '
    if isPersianRange d then
      some (run.take (j + 1) ++ [' ', d], run.drop (j + 2) ++ rest')
    else none

/-- Try group-1 lengths from `run.length` downward (the order the regex
engine backtracks in). -/
def subBSplitAux (run rest' : List Char) : Nat → Option (List Char × List Char)
  | 0 => none
  | j + 1 =>
      match subBSplitTry run rest' j with
      | some r => some r
      | none => subBSplitAux run rest' j

/-- Step 3b, `re.sub(r'(\d+)([؀-ۿ])', r'\1 \2', text)` (line 584). -/
def subB : Nat → List Char → List Char
  | _, [] => []
  | 0, s => s
  | fuel + 1, c :: rest =>
      if isDigitPy c then
        let run := (c :: rest).takeWhile isDigitPy
        let rest' := (c :: rest).drop run.length
        match subBSplitAux run rest' run.length with
        | some (m, cont) => m ++ subB fuel cont
        | none => c :: subB fuel rest
      else c :: subB fuel rest

/-- Step 3c, `re.sub(r'([؀-ۿ])(\d+)', r'\1 \2', text)` (line 585):
one Arabic-script character followed by a maximal (greedy) digit run. -/
def subC : Nat → List Char → List Char
  | _, [] => []
  | 0, s => s
  | fuel + 1, c :: rest =>
      if isPersianRange c && ((rest.head?.map isDigitPy).getD false) then
        let run := rest.takeWhile isDigitPy
        c :: ' ' :: (run ++ subC fuel (rest.drop run.length))
      else c :: subC fuel rest

/-- Step 5a (lines 599-601): replace ZWNJ by a space, remove ZWJ and ZWSP. -/
def cleanZeroWidth (s : List Char) : List Char :=
  ((s.map fun c => if c = zwnj then ' ' else c).filter fun c => c ≠ zwj).filter
    fun c => c ≠ zwsp

/-- Step 5b, `re.sub(r'\s+', ' ', text)` (line 602): collapse every
whitespace run to a single space. -/
def collapseWs : Nat → List Char → List Char
  | _, [] => []
  | 0, s => s
  | fuel + 1, c :: rest =>
      if isSpacePy c then ' ' :: collapseWs fuel (rest.dropWhile isSpacePy)
      else c :: collapseWs fuel rest

/-- Step 3 (lines 582-585): the three word-boundary regexes in source
order, each scanned with fuel equal to its input length. -/
def persianStep3 (u : List Char) : List Char :=
  let ta := subA u.length u
  let tb := subB ta.length ta
  subC tb.length tb

/-- Step 5 (lines 598-602): zero-width cleanup, whitespace collapse,
strip. -/
def persianStep5 (u : List Char) : List Char :=
  let t5 := cleanZeroWidth u
  pyStrip (collapseWs t5.length t5)

/-- `normalize_persian_text` (lines 558-604): step 1 character table,
step 2 merging-fix table, step 3 the three word-boundary regexes, step 4
digit table, step 5 zero-width cleanup, whitespace collapse and strip. -/
def normalize_persian_text (text : String) : String :=
  String.mk (persianStep5 (applyCharTable numberFixesTable (persianStep3
    (applyStrTable characterMergingFixes (applyCharTable replacementsTable text.data)))))

/-- The `error_fixes` table of `normalize_english_text` (lines 612-615),
in insertion order. -/
def errorFixesTable : List (List Char × List Char) :=
  [(['r', 'n'], ['m']), (['c', 'l'], ['d']), (['v', 'v'], ['w']),
   (['|'], ['I']), (['0'], ['O']), (['1'], ['I']), (['5'], ['S']), (['8'], ['B'])]

/-- `normalize_english_text` (lines 606-620): collapse whitespace, apply
the unconditional `error_fixes` substring table, strip. -/
def normalize_english_text (text : String) : String :=
  let t1 := collapseWs text.data.length text.data
  String.mk (pyStrip (applyStrTable errorFixesTable t1))

/-! ## Structured extraction (`extract_structured_data`, lines 622-674)

Each regex of the source is embedded as a dedicated matcher with Python
`re.findall` semantics: scan left to right, take the leftmost match
(with greedy, backtracking quantifiers), emit it, resume scanning right
after it, and advance one character when no match starts here. -/

/-- Python `\w` (word character, for `\b`), over the character repertoire
of this engine: Latin letters, digits, underscore, and Arabic-script
letters (all Unicode letters are word characters in Python). -/
def isWordChar (c : Char) : Bool :=
  isLatinLetter c || isDigitPy c || c = '_' || isPersianRange c

/-- `\b` between a preceding character (none at string start) and the
first matched character. -/
def wordBoundary (prev : Option Char) (c : Char) : Bool :=
  ((prev.map isWordChar).getD false) != isWordChar c

/-- `\b` between the last matched character and the following character
(none at string end). -/
def endWordBoundary (last : Char) (next : Option Char) : Bool :=
  isWordChar last != ((next.map isWordChar).getD false)

/-- The local-part class `[A-Za-z0-9._%+-]` of the email pattern. -/
def emailLocalClass (c : Char) : Bool :=
  isLatinLetter c || ('0' ≤ c && c ≤ '9') || c = '.' || c = '_' || c = '%'
    || c = '+' || c = '-'

/-- The domain class `[A-Za-z0-9.-]` of the email pattern. -/
def emailDomClass (c : Char) : Bool :=
  isLatinLetter c || ('0' ≤ c && c ≤ '9') || c = '.' || c = '-'

/-- The top-level-domain class `[A-Z|a-z]` of the email pattern — note the
literal `|` inside the character class. -/
def emailTldClass (c : Char) : Bool :=
  isLatinLetter c || c = '|'

/-- Attempt the email pattern
`\b[A-Za-z0-9._%+-]+@[A-Za-z0-9.-]+\.[A-Z|a-z]{2,}\b` at the current
position.  The local part never backtracks (`@` is outside its class).
The domain part `[A-Za-z0-9.-]+` greedily takes the maximal run `M` and
gives characters back until the literal `.` matches (the character after
the whole run is never `.`, so group length `j` runs from `M.length - 1`
down to 1); then the TLD part greedily shrinks from the maximal
`[A-Z|a-z]` run down to 2 until the final `\b` holds. -/
def tryEmailAt (prev : Option Char) (s : List Char) : Option (List Char × List Char) :=
  match s with
  | [] => none
  | c :: _ =>
      if !(emailLocalClass c) then none
      else if !(wordBoundary prev c) then none
      else
        let lp := s.takeWhile emailLocalClass
        match s.drop lp.length with
        | '@' :: r2 =>
            let M := r2.takeWhile emailDomClass
            (List.range M.length).reverse.findSome? fun j =>
              if j = 0 then none
              else if M.getD j ' ' ≠ '.' then none
              else
                let tail := r2.drop (j + 1)
                let T0 := tail.takeWhile emailTldClass
                (List.range (T0.length + 1)).reverse.findSome? fun t =>
                  if t < 2 then none
                  else if endWordBoundary (T0.getD (t - 1) ' ') (tail.drop t).head? then
                    some (lp ++ '@' :: M.take j ++ '.' :: T0.take t, tail.drop t)
                  else none
        | _ => none

/-- Attempt the phone pattern `(?:\+98|0)?[0-9]{10,15}` at the current
position: the optional prefix tries `+98`, then `0`, then empty (regex
alternation/option order); the digit run is greedy, capped at 15, and must
reach 10. -/
def tryPhoneAt (_prev : Option Char) (s : List Char) : Option (List Char × List Char) :=
  [some ['+', '9', '8'], some ['0'], none].findSome? fun pre =>
    let p := pre.getD []
    if p.isPrefixOf s then
      let r := s.drop p.length
      let run := r.takeWhile fun c => '0' ≤ c && c ≤ '9'
      if 10 ≤ run.length then
        let tk := run.take 15
        some (p ++ tk, r.drop tk.length)
      else none
    else none

/-- A fixed-shape date template: `none` stands for `\d`, `some c` for the
literal `c`.  Exact-count quantifiers leave nothing to backtrack. -/
def matchTemplate : List (Option Char) → List Char → Option (List Char × List Char)
  | [], rest => some ([], rest)
  | _ :: _, [] => none
  | none :: tpl, c :: rest =>
      if isDigitPy c then (matchTemplate tpl rest).map fun p => (c :: p.1, p.2)
      else none
  | some l :: tpl, c :: rest =>
      if c = l then (matchTemplate tpl rest).map fun p => (l :: p.1, p.2)
      else none

/-- `\d{4}/\d{2}/\d{2}`. -/
def datePattern1 : List (Option Char) :=
  [none, none, none, none, some '/', none, none, some '/', none, none]

/-- `\d{2}/\d{2}/\d{4}`. -/
def datePattern2 : List (Option Char) :=
  [none, none, some '/', none, none, some '/', none, none, none, none]

/-- `\d{4}-\d{2}-\d{2}`. -/
def datePattern3 : List (Option Char) :=
  [none, none, none, none, some '-', none, none, some '-', none, none]

/-- `\d{2}-\d{2}-\d{4}`. -/
def datePattern4 : List (Option Char) :=
  [none, none, some '-', none, none, some '-', none, none, none, none]

/-- `re.findall` scan: try a match at each position; on success emit it and
resume right after it (tracking the character before the scan position for
`\b`), otherwise advance one character.  Fuel `s.length + 1` is enough
since every step consumes at least one character. -/
def findallAux (tryAt : Option Char → List Char → Option (List Char × List Char)) :
    Nat → Option Char → List Char → List (List Char)
  | _, _, [] => []
  | 0, _, _ => []
  | fuel + 1, prev, c :: rest =>
      match tryAt prev (c :: rest) with
      | some (m, r) => m :: findallAux tryAt fuel m.getLast? r
      | none => findallAux tryAt fuel (some c) rest

/-- `re.findall(pattern, text)` for one of the embedded patterns. -/
def pyFindall (tryAt : Option Char → List Char → Option (List Char × List Char))
    (s : List Char) : List String :=
  (findallAux tryAt (s.length + 1) none s).map String.mk

/-- `list(set(dates))`: de-duplication (first occurrence kept; the order
of a Python `set` is unspecified, and no theorem below depends on the
order beyond single-element lists). -/
def dedupFirstAux : List String → List String → List String
  | _, [] => []
  | seen, x :: xs =>
      if x ∈ seen then dedupFirstAux seen xs
      else x :: dedupFirstAux (x :: seen) xs

/-- The claim-relevant fields of the structured record built by
`extract_structured_data`.  The remaining fields (`persian_words`,
`business_words`, `persian_numbers`, `arabic_numbers`) are not referenced
by any claim and are elided. -/
structure StructuredData where
  phone_numbers : List String
  emails : List String
  dates : List String
deriving Repr, DecidableEq

/-- `extract_structured_data` (lines 622-674): phone numbers via
`(?:\+98|0)?[0-9]{10,15}`, emails via
`\b[A-Za-z0-9._%+-]+@[A-Za-z0-9.-]+\.[A-Z|a-z]{2,}\b`, and dates as the
concatenation of the four date patterns' matches (in source order),
de-duplicated through `set`. -/
def extract_structured_data (text : String) : StructuredData :=
  let cs := text.data
  { phone_numbers := pyFindall tryPhoneAt cs
    emails := pyFindall tryEmailAt cs
    dates := dedupFirstAux []
      (pyFindall (fun _ => matchTemplate datePattern1) cs
        ++ pyFindall (fun _ => matchTemplate datePattern2) cs
        ++ pyFindall (fun _ => matchTemplate datePattern3) cs
        ++ pyFindall (fun _ => matchTemplate datePattern4) cs) }

/-! ## Top-level orchestration (`extract_text_optimized_v3`, lines 216-384,
and `_enhanced_english_processing_v3`, lines 386-552) -/

/-- The dict returned to the caller.  Python returns dicts with different
key sets at different return sites, so every key that is absent at some
site is an `Option` (`none` = key absent).  The Persian-path failure dict's
`structured_data` is the empty dict `{}`, also modelled as `none`.
`processing_time`, `version` and `optimization` are constants or wall-clock
values and are elided. -/
structure OcrResult where
  success : Bool
  error : Option String
  raw_text : Option String
  normalized_text : Option String
  confidence : Option ℚ
  language_mode : Option String
  structured_data : Option StructuredData
  strategy : Option String
  bounding_boxes : Option (List Token)
deriving Repr, DecidableEq

/-- World visible to one `extract_text_optimized_v3` run: the language
returned by `detect_language_fast`, whether the path ends in `.pdf`, how
many pages `_convert_pdf_to_images` yields (0 models a corrupted PDF), and
the outcome of every grid cell on each path.  Inputs that are readable
images are worlds with `pdfInput = false` (loading failures of plain
images are outside the claims and not modelled). -/
structure EngineWorld where
  detected : String
  pdfInput : Bool
  pdfPages : Nat
  persianCells : List (List CellOutcome)
  englishCells : List (List EngCellOutcome)

/-- The successful Persian/bilingual-path result (lines 358-370).  This
path always reports `success=True`, with the best tuple of the grid fold
(the `lang_mode == 'eng'` branch of line 350 is dead here, since English
runs returned at line 242): `confidence` is `best_confidence / 100` — the
single division from the internal 0-100 scale. -/
def persianSuccessResult (w : EngineWorld) : OcrResult :=
  let b := persianFold w.persianCells
  let normalized := normalize_persian_text b.text
  { success := true
    error := none
    raw_text := some b.text
    normalized_text := some normalized
    confidence := some (b.conf / 100)
    language_mode := some w.detected
    structured_data := some (extract_structured_data normalized)
    strategy := some b.strategy
    bounding_boxes := some b.boxes }

/-- `_enhanced_english_processing_v3` (lines 386-552).  Inside its `try`:
a PDF that yields no pages returns the two-key dict
`{"success": False, "error": "PDF conversion failed"}` (line 401) — with
no other keys at all; otherwise the grid fold's best tuple is packaged as
a success (lines 526-538), with `confidence / 100` divided once. -/
def enhanced_english_processing_v3 (w : EngineWorld) : OcrResult :=
  if w.pdfInput && w.pdfPages == 0 then
    { success := false
      error := some "PDF conversion failed"
      raw_text := none
      normalized_text := none
      confidence := none
      language_mode := none
      structured_data := none
      strategy := none
      bounding_boxes := none }
  else
    let b := engFold w.englishCells
    let normalized := normalize_english_text b.text
    { success := true
      error := none
      raw_text := some b.text
      normalized_text := some normalized
      confidence := some (b.conf / 100)
      language_mode := some w.detected
      structured_data := some (extract_structured_data normalized)
      strategy := some b.strategy
      bounding_boxes := some b.boxes }

/-- `extract_text_optimized_v3` (lines 216-384).  After language
detection: English mode returns the enhanced-English result (line 242);
otherwise `preprocess_optimized_v3` runs **outside** the `try` block that
starts at line 278, so its `raise ValueError("Failed to convert PDF to
images")` (line 70) on a 0-page PDF propagates out of the function —
modelled as `Except.error`.  Otherwise the grid search runs inside the
`try` (per-cell exceptions are consumed by the inner `except` at line 335)
and the success dict is returned. -/
def extract_text_optimized_v3 (w : EngineWorld) : Except String OcrResult :=
  if w.detected = "eng" then
    Except.ok (enhanced_english_processing_v3 w)
  else if w.pdfInput && w.pdfPages == 0 then
    Except.error "Failed to convert PDF to images"
  else
    Except.ok (persianSuccessResult w)

/-! ## Lemmas about the grid-search fold -/

theorem persianCellStep_conf_le (s : BestResult) (a : Nat × Nat × CellOutcome) :
    s.conf ≤ (persianCellStep s a).conf := by
  rcases a with ⟨i, j, oc⟩
  cases oc with
  | error e => exact le_refl s.conf
  | ok p =>
      rcases p with ⟨text, toks⟩
      unfold persianCellStep
      dsimp only
      split
      next h => exact le_of_lt h
      next h => exact le_refl s.conf

theorem foldl_persianCellStep_conf_le (l : List (Nat × Nat × CellOutcome)) :
    ∀ s : BestResult, s.conf ≤ (l.foldl persianCellStep s).conf := by
  induction l with
  | nil => intro s; exact le_refl s.conf
  | cons a l ih =>
      intro s
      exact le_trans (persianCellStep_conf_le s a) (ih (persianCellStep s a))

theorem persianCellStep_keep (s : BestResult) (i j : Nat) (text : String)
    (toks : List Token) (h : attemptAvg toks ≤ s.conf) :
    persianCellStep s (i, j, Except.ok (text, toks)) = s := by
  unfold persianCellStep
  dsimp only
  rw [if_neg (not_lt.mpr h)]

theorem persianCellStep_replace (s : BestResult) (i j : Nat) (text : String)
    (toks : List Token) (h : s.conf < attemptAvg toks) :
    persianCellStep s (i, j, Except.ok (text, toks))
      = ⟨text, attemptAvg toks, strategyStr i j, keptTokens toks⟩ := by
  unfold persianCellStep
  dsimp only
  rw [if_pos h]

theorem engCellStep_conf_le (s : BestResult) (a : Nat × Nat × EngCellOutcome) :
    s.conf ≤ (engCellStep s a).conf := by
  rcases a with ⟨i, j, oc⟩
  cases oc with
  | error e => exact le_refl s.conf
  | ok toks =>
      unfold engCellStep
      dsimp only
      split
      · exact le_refl s.conf
      · split
        next h => exact le_of_lt h.1
        next h => exact le_refl s.conf

theorem foldl_engCellStep_conf_le (l : List (Nat × Nat × EngCellOutcome)) :
    ∀ s : BestResult, s.conf ≤ (l.foldl engCellStep s).conf := by
  induction l with
  | nil => intro s; exact le_refl s.conf
  | cons a l ih =>
      intro s
      exact le_trans (engCellStep_conf_le s a) (ih (engCellStep s a))

theorem engCellStep_keep (s : BestResult) (i j : Nat) (toks : List Token)
    (h : engAvg toks ≤ s.conf) :
    engCellStep s (i, j, Except.ok toks) = s := by
  unfold engCellStep
  dsimp only
  split
  · rfl
  · rw [if_neg]
    intro hc
    exact absurd hc.1 (not_lt.mpr h)

theorem engCellStep_short_keep (s : BestResult) (i j : Nat) (toks : List Token)
    (h : (engJoinText toks).length ≤ 50) :
    engCellStep s (i, j, Except.ok toks) = s := by
  unfold engCellStep
  dsimp only
  split
  · rfl
  · rw [if_neg]
    intro hc
    exact absurd hc.2 (not_lt.mpr h)

theorem engCellStep_text_inv (s : BestResult) (a : Nat × Nat × EngCellOutcome)
    (h : s.text = "" ∨ 50 < s.text.length) :
    (engCellStep s a).text = "" ∨ 50 < (engCellStep s a).text.length := by
  rcases a with ⟨i, j, oc⟩
  cases oc with
  | error e => exact h
  | ok toks =>
      unfold engCellStep
      dsimp only
      split
      · exact h
      · split
        next hc => exact Or.inr hc.2
        next hc => exact h

theorem foldl_engCellStep_text_inv (l : List (Nat × Nat × EngCellOutcome)) :
    ∀ s : BestResult, (s.text = "" ∨ 50 < s.text.length) →
      ((l.foldl engCellStep s).text = "" ∨ 50 < (l.foldl engCellStep s).text.length) := by
  induction l with
  | nil => intro s h; exact h
  | cons a l ih =>
      intro s h
      exact ih (engCellStep s a) (engCellStep_text_inv s a h)

theorem keptTokens_subset (ts : List Token) : ∀ t ∈ keptTokens ts, t ∈ ts := by
  intro t ht
  exact List.mem_of_mem_filter ht

theorem tokenAvg_le_100 (ks : List Token) (h : ∀ t ∈ ks, (t.conf : ℚ) ≤ 100)
    (hne : ks ≠ []) :
    ((ks.map fun t => (t.conf : ℚ)).sum) / (ks.length : ℚ) ≤ 100 := by
  have hlen : 0 < (ks.length : ℚ) := by
    exact_mod_cast List.length_pos.mpr hne
  rw [div_le_iff₀ hlen]
  have hsum : (ks.map fun t => (t.conf : ℚ)).sum
      ≤ (ks.map fun t => (t.conf : ℚ)).length • (100 : ℚ) :=
    List.sum_le_card_nsmul _ _ (by
      intro x hx
      rcases List.mem_map.mp hx with ⟨t, ht, rfl⟩
      exact h t ht)
  rw [List.length_map] at hsum
  calc (ks.map fun t => (t.conf : ℚ)).sum ≤ (ks.length : ℚ) * 100 := by
        rw [← nsmul_eq_mul]; exact hsum
    _ = 100 * (ks.length : ℚ) := mul_comm _ _

theorem attemptAvg_le_100 (toks : List Token)
    (h : ∀ t ∈ toks, (t.conf : ℚ) ≤ 100) : attemptAvg toks ≤ 100 := by
  unfold attemptAvg
  dsimp only
  split
  next => norm_num
  next hne =>
      apply tokenAvg_le_100
      · intro t ht
        exact h t (keptTokens_subset toks t ht)
      · intro hnil
        exact hne (by rw [hnil]; rfl)

theorem engAvg_le_100 (toks : List Token) (h : ∀ t ∈ toks, (t.conf : ℚ) ≤ 100)
    (hne : ¬ (keptTokens toks).isEmpty = true) : engAvg toks ≤ 100 := by
  unfold engAvg
  dsimp only
  apply tokenAvg_le_100
  · intro t ht
    exact h t (keptTokens_subset toks t ht)
  · intro hnil
    exact hne (by rw [hnil]; rfl)

theorem persianCellStep_conf_le_100 (s : BestResult) (a : Nat × Nat × CellOutcome)
    (h100 : ∀ t ∈ attemptTokens a.2.2, (t.conf : ℚ) ≤ 100) (hs : s.conf ≤ 100) :
    (persianCellStep s a).conf ≤ 100 := by
  rcases a with ⟨i, j, oc⟩
  cases oc with
  | error e => exact hs
  | ok p =>
      rcases p with ⟨text, toks⟩
      unfold persianCellStep
      dsimp only
      split
      next => exact attemptAvg_le_100 toks h100
      next => exact hs

theorem foldl_persianCellStep_conf_le_100 (l : List (Nat × Nat × CellOutcome))
    (hl : ∀ a ∈ l, ∀ t ∈ attemptTokens a.2.2, (t.conf : ℚ) ≤ 100) :
    ∀ s : BestResult, s.conf ≤ 100 → (l.foldl persianCellStep s).conf ≤ 100 := by
  induction l with
  | nil => intro s hs; exact hs
  | cons a l ih =>
      intro s hs
      exact ih (fun b hb => hl b (List.mem_cons_of_mem a hb)) _
        (persianCellStep_conf_le_100 s a (hl a (List.mem_cons_self a l)) hs)

theorem engCellStep_conf_le_100 (s : BestResult) (a : Nat × Nat × EngCellOutcome)
    (h100 : ∀ t ∈ engAttemptTokens a.2.2, (t.conf : ℚ) ≤ 100) (hs : s.conf ≤ 100) :
    (engCellStep s a).conf ≤ 100 := by
  rcases a with ⟨i, j, oc⟩
  cases oc with
  | error e => exact hs
  | ok toks =>
      unfold engCellStep
      dsimp only
      split
      next => exact hs
      next hne =>
          split
          next => exact engAvg_le_100 toks h100 hne
          next => exact hs

theorem foldl_engCellStep_conf_le_100 (l : List (Nat × Nat × EngCellOutcome))
    (hl : ∀ a ∈ l, ∀ t ∈ engAttemptTokens a.2.2, (t.conf : ℚ) ≤ 100) :
    ∀ s : BestResult, s.conf ≤ 100 → (l.foldl engCellStep s).conf ≤ 100 := by
  induction l with
  | nil => intro s hs; exact hs
  | cons a l ih =>
      intro s hs
      exact ih (fun b hb => hl b (List.mem_cons_of_mem a hb)) _
        (engCellStep_conf_le_100 s a (hl a (List.mem_cons_self a l)) hs)

theorem foldl_persianCellStep_allEmpty (l : List (Nat × Nat × CellOutcome))
    (hl : ∀ a ∈ l, keptTokens (attemptTokens a.2.2) = []) :
    l.foldl persianCellStep bestInit = bestInit := by
  induction l with
  | nil => rfl
  | cons a l ih =>
      have h0 := hl a (List.mem_cons_self a l)
      have hstep : persianCellStep bestInit a = bestInit := by
        rcases a with ⟨i, j, oc⟩
        cases oc with
        | error e => rfl
        | ok p =>
            rcases p with ⟨text, toks⟩
            have hk : keptTokens toks = [] := h0
            apply persianCellStep_keep
            simp [attemptAvg, hk, bestInit]
      rw [List.foldl_cons, hstep]
      exact ih fun b hb => hl b (List.mem_cons_of_mem a hb)

/-! ## Claim C2 — strict-improvement selection with first-found tie-break -/

/-- C2: folding grid attempts in (candidate-index, config-index) priority
order, the recorded best confidence is monotonically non-decreasing (per
step and over any fold); the best tuple is replaced exactly when the new
attempt's average token confidence is strictly greater (then the whole
(text, confidence, strategy, boxes) tuple is replaced); and an attempt
whose average equals (or is below) the current best leaves the state
unchanged, so on exact ties the earlier attempt in priority order is kept.
Both the Persian/MIXED update (lines 327-331) and the English update
(lines 502-506) satisfy this. -/
theorem c2_strict_improvement_fold (s : BestResult) (i j : Nat) (text : String)
    (toks etoks : List Token)
    (l : List (Nat × Nat × CellOutcome)) (el : List (Nat × Nat × EngCellOutcome)) :
    s.conf ≤ (persianCellStep s (i, j, Except.ok (text, toks))).conf
    ∧ (attemptAvg toks ≤ s.conf → persianCellStep s (i, j, Except.ok (text, toks)) = s)
    ∧ (s.conf < attemptAvg toks →
        persianCellStep s (i, j, Except.ok (text, toks))
          = ⟨text, attemptAvg toks, strategyStr i j, keptTokens toks⟩)
    ∧ s.conf ≤ (l.foldl persianCellStep s).conf
    ∧ s.conf ≤ (engCellStep s (i, j, Except.ok etoks)).conf
    ∧ (engAvg etoks ≤ s.conf → engCellStep s (i, j, Except.ok etoks) = s)
    ∧ s.conf ≤ (el.foldl engCellStep s).conf :=
  ⟨persianCellStep_conf_le s (i, j, Except.ok (text, toks)),
   persianCellStep_keep s i j text toks,
   persianCellStep_replace s i j text toks,
   foldl_persianCellStep_conf_le l s,
   engCellStep_conf_le s (i, j, Except.ok etoks),
   engCellStep_keep s i j etoks,
   foldl_engCellStep_conf_le el s⟩

/-- Witness for C2: a tied attempt (average confidence 80 against a best
of 80) leaves the best state — found earlier in priority order —
unchanged. -/
theorem c2_strict_improvement_fold_witness :
    persianCellStep ⟨"t", 80, "S:1|C:1", []⟩ (1, 2, Except.ok ("x", [⟨80, "w"⟩])) =
      ⟨"t", 80, "S:1|C:1", []⟩ :=
  (c2_strict_improvement_fold ⟨"t", 80, "S:1|C:1", []⟩ 1 2 "x" [⟨80, "w"⟩] [] [] []).2.1
    (by simp [attemptAvg, keptTokens, pyIntNeStr, pyStripStr, pyStrip, isSpacePy])

/-! ## Claim C5 — the 50-character gate on the English path -/

/-- C5: on the English path, an attempt whose joined recognized text has
length ≤ 50 characters never replaces the best state, whatever its
confidence; consequently the text selected by any English grid fold is
either the initial empty string (no attempt was eligible) or has length
strictly greater than 50. -/
theorem c5_english_length_gate (s : BestResult) (i j : Nat) (toks : List Token)
    (cells : List (List EngCellOutcome)) :
    ((engJoinText toks).length ≤ 50 → engCellStep s (i, j, Except.ok toks) = s)
    ∧ ((engFold cells).text = "" ∨ 50 < (engFold cells).text.length) :=
  ⟨engCellStep_short_keep s i j toks,
   foldl_engCellStep_text_inv (gridAttempts cells) bestInit (Or.inl rfl)⟩

/-- Witness for C5: a short (2-character) attempt with confidence 99 does
not displace an empty best state. -/
theorem c5_english_length_gate_witness :
    engCellStep bestInit (0, 0, Except.ok [⟨99, "hi"⟩]) = bestInit :=
  (c5_english_length_gate bestInit 0 0 [⟨99, "hi"⟩] []).1 (by decide)

/-! ## Claim C10 — Persian path with every attempt failed or token-free -/

/-- C10: on the Persian/MIXED path, when every grid attempt either raised
(no tokens) or yielded zero valid tokens, `extract_text_optimized_v3`
still returns `success=True` with confidence 0, empty `raw_text`, empty
`strategy` and empty `bounding_boxes` — it does not report failure. -/
theorem c10_persian_all_failed_attempts (w : EngineWorld)
    (hlang : w.detected ≠ "eng")
    (hpdf : (w.pdfInput && w.pdfPages == 0) = false)
    (hbad : ∀ a ∈ gridAttempts w.persianCells, keptTokens (attemptTokens a.2.2) = []) :
    ∃ r, extract_text_optimized_v3 w = Except.ok r
      ∧ r.success = true ∧ r.confidence = some 0 ∧ r.raw_text = some ""
      ∧ r.strategy = some "" ∧ r.bounding_boxes = some [] := by
  have hfold : persianFold w.persianCells = bestInit :=
    foldl_persianCellStep_allEmpty (gridAttempts w.persianCells) hbad
  refine ⟨persianSuccessResult w, ?_, ?_, ?_, ?_, ?_, ?_⟩
  · unfold extract_text_optimized_v3
    rw [if_neg hlang, hpdf]
    rfl
  · rfl
  · show some ((persianFold w.persianCells).conf / 100) = some 0
    rw [hfold]
    norm_num [bestInit]
  · show some (persianFold w.persianCells).text = some ""
    rw [hfold]
    rfl
  · show some (persianFold w.persianCells).strategy = some ""
    rw [hfold]
    rfl
  · show some (persianFold w.persianCells).boxes = some []
    rw [hfold]
    rfl

/-- Witness for C10 at a concrete world: one attempt raised and one
returned a single all-whitespace token (filtered out). -/
theorem c10_persian_all_failed_attempts_witness :
    ∃ r, extract_text_optimized_v3
        ⟨"fas+eng", false, 1,
         [[Except.error "boom"], [Except.ok ("ab", [⟨50, " "⟩])]], []⟩ = Except.ok r
      ∧ r.success = true ∧ r.confidence = some 0 ∧ r.raw_text = some ""
      ∧ r.strategy = some "" ∧ r.bounding_boxes = some [] :=
  c10_persian_all_failed_attempts
    ⟨"fas+eng", false, 1, [[Except.error "boom"], [Except.ok ("ab", [⟨50, " "⟩])]], []⟩
    (by decide) (by decide) (by decide)

/-! ## Claim C8 — confidence scale and the single division by 100 -/

/-- C8: assuming the engine-contract bound that every token confidence is
at most 100, the internal best confidence of either grid fold stays on the
0-100 scale (it starts at 0 and only strictly improves), and each success
result's `confidence` field is exactly that internal value divided by 100
— divided once, at result construction — hence lies in [0, 1]. -/
theorem c8_confidence_unit_interval (w : EngineWorld)
    (hp : ∀ a ∈ gridAttempts w.persianCells, ∀ t ∈ attemptTokens a.2.2, (t.conf : ℚ) ≤ 100)
    (he : ∀ a ∈ gridAttempts w.englishCells, ∀ t ∈ engAttemptTokens a.2.2, (t.conf : ℚ) ≤ 100) :
    (0 ≤ (persianFold w.persianCells).conf ∧ (persianFold w.persianCells).conf ≤ 100
      ∧ (persianSuccessResult w).confidence = some ((persianFold w.persianCells).conf / 100)
      ∧ (∀ c, (persianSuccessResult w).confidence = some c → 0 ≤ c ∧ c ≤ 1))
    ∧ (0 ≤ (engFold w.englishCells).conf ∧ (engFold w.englishCells).conf ≤ 100
      ∧ ((w.pdfInput && w.pdfPages == 0) = false →
          (enhanced_english_processing_v3 w).confidence = some ((engFold w.englishCells).conf / 100)
          ∧ ∀ c, (enhanced_english_processing_v3 w).confidence = some c → 0 ≤ c ∧ c ≤ 1)) := by
  have hp0 : 0 ≤ (persianFold w.persianCells).conf :=
    foldl_persianCellStep_conf_le (gridAttempts w.persianCells) bestInit
  have hp100 : (persianFold w.persianCells).conf ≤ 100 :=
    foldl_persianCellStep_conf_le_100 (gridAttempts w.persianCells) hp bestInit (by norm_num [bestInit])
  have he0 : 0 ≤ (engFold w.englishCells).conf :=
    foldl_engCellStep_conf_le (gridAttempts w.englishCells) bestInit
  have he100 : (engFold w.englishCells).conf ≤ 100 :=
    foldl_engCellStep_conf_le_100 (gridAttempts w.englishCells) he bestInit (by norm_num [bestInit])
  refine ⟨⟨hp0, hp100, rfl, ?_⟩, he0, he100, ?_⟩
  · intro c hc
    have hc' : c = (persianFold w.persianCells).conf / 100 := by
      injection hc with h
      exact h.symm
    subst hc'
    constructor
    · exact div_nonneg hp0 (by norm_num)
    · rw [div_le_one (by norm_num)]
      exact le_trans hp100 (by norm_num)
  · intro hpdf
    have hres : (enhanced_english_processing_v3 w).confidence
        = some ((engFold w.englishCells).conf / 100) := by
      unfold enhanced_english_processing_v3
      rw [hpdf]
      rfl
    refine ⟨hres, ?_⟩
    intro c hc
    rw [hres] at hc
    have hc' : c = (engFold w.englishCells).conf / 100 := by
      injection hc with h
      exact h.symm
    subst hc'
    constructor
    · exact div_nonneg he0 (by norm_num)
    · rw [div_le_one (by norm_num)]
      exact le_trans he100 (by norm_num)

/-- Witness for C8 at a concrete world with one Persian attempt (one token
at confidence 90) and one English attempt (one token at confidence 80). -/
theorem c8_confidence_unit_interval_witness :
    (persianSuccessResult
        ⟨"fas+eng", false, 1, [[Except.ok ("t", [⟨90, "hello"⟩])]],
         [[Except.ok [⟨80, "word"⟩]]]⟩).confidence
      = some ((persianFold [[Except.ok ("t", [⟨90, "hello"⟩])]]).conf / 100) :=
  (c8_confidence_unit_interval
    ⟨"fas+eng", false, 1, [[Except.ok ("t", [⟨90, "hello"⟩])]], [[Except.ok [⟨80, "word"⟩]]]⟩
    (by decide) (by decide)).1.2.2.1

/-! ## Claim C1 — behaviour on a corrupted / unreadable PDF -/

/-- C1 counterexample: with a corrupted PDF (rasterization yields no
pages) on the Persian/MIXED path, `preprocess_optimized_v3` is called
outside the `try` block, so its `ValueError` propagates out of
`extract_text_optimized_v3` instead of a `success=False` result — the
claim's "no exception crosses the engine boundary" fails at this concrete
input. -/
theorem c1_corrupted_pdf_counterexample :
    extract_text_optimized_v3 ⟨"fas+eng", true, 0, [], []⟩
      = Except.error "Failed to convert PDF to images" := rfl

/-- C1 (amended): on a corrupted PDF, the Persian/MIXED path raises
`ValueError("Failed to convert PDF to images")` out of
`extract_text_optimized_v3` (line 70, outside the `try` of line 278),
while the English path returns `success=False` with the non-empty error
string `"PDF conversion failed"` but with no `bounding_boxes` or
`structured_data` keys at all (the two-key dict of line 401). -/
theorem c1_corrupted_pdf_amended (w : EngineWorld)
    (hpdf : w.pdfInput = true) (h0 : w.pdfPages = 0) :
    (w.detected ≠ "eng" →
      extract_text_optimized_v3 w = Except.error "Failed to convert PDF to images")
    ∧ (w.detected = "eng" →
      extract_text_optimized_v3 w = Except.ok
        { success := false, error := some "PDF conversion failed", raw_text := none,
          normalized_text := none, confidence := none, language_mode := none,
          structured_data := none, strategy := none, bounding_boxes := none }) := by
  constructor
  · intro hlang
    unfold extract_text_optimized_v3
    rw [if_neg hlang, hpdf, h0]
    rfl
  · intro hlang
    unfold extract_text_optimized_v3
    rw [if_pos hlang]
    unfold enhanced_english_processing_v3
    rw [hpdf, h0]
    rfl

/-- Witness for C1 (amended) at a concrete corrupted-PDF world detected as
Persian. -/
theorem c1_corrupted_pdf_amended_witness :
    extract_text_optimized_v3 ⟨"fas", true, 0, [], []⟩
      = Except.error "Failed to convert PDF to images" :=
  (c1_corrupted_pdf_amended ⟨"fas", true, 0, [], []⟩ rfl rfl).1 (by decide)

/-! ## Lemmas about the normalization passes -/

/-- The character-wise function computed by a `applyCharTable` pass:
`c` threaded through the successive single-character replacements. -/
def charTableFun (tbl : List (Char × Char)) (c : Char) : Char :=
  tbl.foldl (fun a p => if a = p.1 then p.2 else a) c

theorem applyCharTable_eq_map (tbl : List (Char × Char)) :
    ∀ s : List Char, applyCharTable tbl s = s.map (charTableFun tbl) := by
  induction tbl with
  | nil =>
      intro s
      show s = s.map (charTableFun [])
      have : charTableFun ([] : List (Char × Char)) = id := rfl
      rw [this, List.map_id]
  | cons p tbl ih =>
      intro s
      show applyCharTable tbl (s.map fun c => if c = p.1 then p.2 else c)
        = s.map (charTableFun (p :: tbl))
      rw [ih, List.map_map]
      rfl

theorem charTableFun_eq_self (tbl : List (Char × Char)) (c : Char)
    (h : ∀ p ∈ tbl, c ≠ p.1) : charTableFun tbl c = c := by
  induction tbl with
  | nil => rfl
  | cons p tbl ih =>
      show charTableFun tbl (if c = p.1 then p.2 else c) = c
      rw [if_neg (h p (List.mem_cons_self p tbl))]
      exact ih fun q hq => h q (List.mem_cons_of_mem p hq)

theorem ne_fst_of_not_mem_map_fst (tbl : List (Char × Char)) (c : Char)
    (h : c ∉ tbl.map Prod.fst) : ∀ p ∈ tbl, c ≠ p.1 := by
  intro p hp heq
  exact h (List.mem_map.mpr ⟨p, hp, heq.symm⟩)

theorem charTableFun_avoid (tbl : List (Char × Char)) (bad : List Char)
    (hdom : ∀ x ∈ bad, x ∈ tbl.map Prod.fst)
    (hout : ∀ p ∈ tbl, charTableFun tbl p.1 ∉ bad) :
    ∀ c, charTableFun tbl c ∉ bad := by
  intro c
  by_cases hc : c ∈ tbl.map Prod.fst
  · rcases List.mem_map.mp hc with ⟨p, hp, rfl⟩
    exact hout p hp
  · rw [charTableFun_eq_self tbl c (ne_fst_of_not_mem_map_fst tbl c hc)]
    intro hbad
    exact hc (hdom c hbad)

theorem charTableFun_preserve (tbl : List (Char × Char)) (bad : List Char)
    (hout : ∀ p ∈ tbl, charTableFun tbl p.1 ∉ bad) :
    ∀ c, c ∉ bad → charTableFun tbl c ∉ bad := by
  intro c hc
  by_cases hm : c ∈ tbl.map Prod.fst
  · rcases List.mem_map.mp hm with ⟨p, hp, rfl⟩
    exact hout p hp
  · rw [charTableFun_eq_self tbl c (ne_fst_of_not_mem_map_fst tbl c hm)]
    exact hc

theorem mem_pyReplaceAux (pat repl : List Char) :
    ∀ fuel s c, c ∈ pyReplaceAux pat repl fuel s → c ∈ repl ∨ c ∈ s := by
  intro fuel
  induction fuel with
  | zero =>
      intro s c hc
      cases s with
      | nil => simp [pyReplaceAux] at hc
      | cons a rest => exact Or.inr (by simpa [pyReplaceAux] using hc)
  | succ fuel ih =>
      intro s c hc
      cases s with
      | nil => simp [pyReplaceAux] at hc
      | cons a rest =>
          rw [pyReplaceAux] at hc
          by_cases hpre : pat.isPrefixOf (a :: rest)
          · rw [if_pos hpre] at hc
            rcases List.mem_append.mp hc with h | h
            · exact Or.inl h
            · rcases ih _ c h with h' | h'
              · exact Or.inl h'
              · exact Or.inr (List.drop_subset _ _ h')
          · rw [if_neg hpre] at hc
            rcases List.mem_cons.mp hc with rfl | h
            · exact Or.inr (List.mem_cons_self _ _)
            · rcases ih rest c h with h' | h'
              · exact Or.inl h'
              · exact Or.inr (List.mem_cons_of_mem a h')

theorem mem_pyReplace (s pat repl : List Char) (c : Char)
    (hc : c ∈ pyReplace s pat repl) : c ∈ repl ∨ c ∈ s :=
  mem_pyReplaceAux pat repl s.length s c hc

theorem mem_applyStrTable (tbl : List (List Char × List Char)) :
    ∀ s c, c ∈ applyStrTable tbl s → c ∈ s ∨ ∃ p ∈ tbl, c ∈ p.2 := by
  induction tbl with
  | nil =>
      intro s c hc
      exact Or.inl hc
  | cons p tbl ih =>
      intro s c hc
      rcases ih (pyReplace s p.1 p.2) c hc with h | ⟨q, hq, hcq⟩
      · rcases mem_pyReplace s p.1 p.2 c h with h' | h'
        · exact Or.inr ⟨p, List.mem_cons_self p tbl, h'⟩
        · exact Or.inl h'
      · exact Or.inr ⟨q, List.mem_cons_of_mem p hq, hcq⟩

theorem mem_subA : ∀ fuel s c, c ∈ subA fuel s → c ∈ s ∨ c = ' ' := by
  intro fuel
  induction fuel with
  | zero =>
      intro s c hc
      cases s with
      | nil => simp [subA] at hc
      | cons a rest => exact Or.inl (by simpa [subA] using hc)
  | succ fuel ih =>
      intro s c hc
      cases s with
      | nil => simp [subA] at hc
      | cons a rest =>
          rw [subA] at hc
          by_cases hp : isPersianRange a
          · rw [if_pos hp] at hc
            rcases List.mem_append.mp hc with h | h
            · have hrun : ∀ x, x ∈ (a :: rest).takeWhile isPersianRange → x ∈ a :: rest :=
                fun x hx => (List.takeWhile_sublist _).subset hx
              by_cases h6 : 6 ≤ ((a :: rest).takeWhile isPersianRange).length
              · rw [if_pos h6] at h
                rcases List.mem_append.mp h with h' | h'
                · exact Or.inl (hrun c (List.take_subset _ _ h'))
                · rcases List.mem_cons.mp h' with rfl | h''
                  · exact Or.inr rfl
                  · exact Or.inl (hrun c (List.drop_subset _ _ h''))
              · rw [if_neg h6] at h
                exact Or.inl (hrun c h)
            · rcases ih _ c h with h' | h'
              · exact Or.inl (List.drop_subset _ _ h')
              · exact Or.inr h'
          · rw [if_neg hp] at hc
            rcases List.mem_cons.mp hc with rfl | h
            · exact Or.inl (List.mem_cons_self _ _)
            · rcases ih rest c h with h' | h'
              · exact Or.inl (List.mem_cons_of_mem a h')
              · exact Or.inr h'

theorem subBSplitTry_mem (run rest' : List Char) (j : Nat) (m cont : List Char)
    (h : subBSplitTry run rest' j = some (m, cont)) :
    (∀ c ∈ m, c ∈ run ∨ c ∈ rest' ∨ c = ' ')
    ∧ (∀ c ∈ cont, c ∈ run ∨ c ∈ rest') := by
  unfold subBSplitTry at h
  by_cases he : j + 1 = run.length
  · rw [if_pos he] at h
    cases rest' with
    | nil => exact absurd h (by simp)
    | cons d rs =>
        dsimp only at h
        by_cases hd : isPersianRange d
        · rw [if_pos hd] at h
          injection h with h'
          injection h' with h1 h2
          subst h1
          subst h2
          constructor
          · intro c hc
            rcases List.mem_append.mp hc with h' | h'
            · exact Or.inl h'
            · rcases List.mem_cons.mp h' with rfl | h''
              · exact Or.inr (Or.inr rfl)
              · rcases List.mem_cons.mp h'' with rfl | h3
                · exact Or.inr (Or.inl (List.mem_cons_self _ _))
                · simp at h3
          · intro c hc
            exact Or.inr (List.mem_cons_of_mem d hc)
        · rw [if_neg hd] at h
          exact absurd h (by simp)
  · rw [if_neg he] at h
    dsimp only at h
    by_cases hd : isPersianRange (run.getD (j + 1) ' ')
    · rw [if_pos hd] at h
      injection h with h'
      injection h' with h1 h2
      subst h1
      subst h2
      constructor
      · intro c hc
        rcases List.mem_append.mp hc with h' | h'
        · exact Or.inl (List.take_subset _ _ h')
        · rcases List.mem_cons.mp h' with rfl | h''
          · exact Or.inr (Or.inr rfl)
          · rcases List.mem_cons.mp h'' with rfl | h3
            · by_cases hj : j + 1 < run.length
              · refine Or.inl ?_
                rw [List.getD_eq_getElem run ' ' hj]
                exact List.getElem_mem hj
              · refine Or.inr (Or.inr ?_)
                exact List.getD_eq_default run ' ' (not_lt.mp hj)
            · simp at h3
      · intro c hc
        rcases List.mem_append.mp hc with h' | h'
        · exact Or.inl (List.drop_subset _ _ h')
        · exact Or.inr h'
    · rw [if_neg hd] at h
      exact absurd h (by simp)

theorem subBSplitAux_mem (run rest' : List Char) :
    ∀ n m cont, subBSplitAux run rest' n = some (m, cont) →
      (∀ c ∈ m, c ∈ run ∨ c ∈ rest' ∨ c = ' ')
      ∧ (∀ c ∈ cont, c ∈ run ∨ c ∈ rest') := by
  intro n
  induction n with
  | zero =>
      intro m cont h
      exact absurd h (by simp [subBSplitAux])
  | succ j ih =>
      intro m cont h
      rw [subBSplitAux] at h
      cases htry : subBSplitTry run rest' j with
      | some r =>
          rw [htry] at h
          dsimp only at h
          injection h with h'
          subst h'
          exact subBSplitTry_mem run rest' j m cont htry
      | none =>
          rw [htry] at h
          exact ih m cont h

theorem mem_subB : ∀ fuel s c, c ∈ subB fuel s → c ∈ s ∨ c = ' ' := by
  intro fuel
  induction fuel with
  | zero =>
      intro s c hc
      cases s with
      | nil => simp [subB] at hc
      | cons a rest => exact Or.inl (by simpa [subB] using hc)
  | succ fuel ih =>
      intro s c hc
      cases s with
      | nil => simp [subB] at hc
      | cons a rest =>
          rw [subB] at hc
          by_cases hd : isDigitPy a
          · rw [if_pos hd] at hc
            dsimp only at hc
            have hrun : ∀ x, x ∈ (a :: rest).takeWhile isDigitPy → x ∈ a :: rest :=
              fun x hx => (List.takeWhile_sublist _).subset hx
            cases hsplit : subBSplitAux ((a :: rest).takeWhile isDigitPy)
                ((a :: rest).drop ((a :: rest).takeWhile isDigitPy).length)
                ((a :: rest).takeWhile isDigitPy).length with
            | some r =>
                rw [hsplit] at hc
                rcases r with ⟨m, cont⟩
                dsimp only at hc
                have hspec := subBSplitAux_mem _ _ _ m cont hsplit
                rcases List.mem_append.mp hc with h | h
                · rcases hspec.1 c h with h' | h' | h'
                  · exact Or.inl (hrun c h')
                  · exact Or.inl (List.drop_subset _ _ h')
                  · exact Or.inr h'
                · rcases ih cont c h with h' | h'
                  · rcases hspec.2 c h' with h'' | h''
                    · exact Or.inl (hrun c h'')
                    · exact Or.inl (List.drop_subset _ _ h'')
                  · exact Or.inr h'
            | none =>
                rw [hsplit] at hc
                dsimp only at hc
                rcases List.mem_cons.mp hc with rfl | h
                · exact Or.inl (List.mem_cons_self _ _)
                · rcases ih rest c h with h' | h'
                  · exact Or.inl (List.mem_cons_of_mem a h')
                  · exact Or.inr h'
          · rw [if_neg hd] at hc
            rcases List.mem_cons.mp hc with rfl | h
            · exact Or.inl (List.mem_cons_self _ _)
            · rcases ih rest c h with h' | h'
              · exact Or.inl (List.mem_cons_of_mem a h')
              · exact Or.inr h'

theorem mem_subC : ∀ fuel s c, c ∈ subC fuel s → c ∈ s ∨ c = ' ' := by
  intro fuel
  induction fuel with
  | zero =>
      intro s c hc
      cases s with
      | nil => simp [subC] at hc
      | cons a rest => exact Or.inl (by simpa [subC] using hc)
  | succ fuel ih =>
      intro s c hc
      cases s with
      | nil => simp [subC] at hc
      | cons a rest =>
          rw [subC] at hc
          by_cases hcond : (isPersianRange a && ((rest.head?.map isDigitPy).getD false)) = true
          · rw [if_pos hcond] at hc
            rcases List.mem_cons.mp hc with rfl | h
            · exact Or.inl (List.mem_cons_self _ _)
            · rcases List.mem_cons.mp h with rfl | h'
              · exact Or.inr rfl
              · rcases List.mem_append.mp h' with h'' | h''
                · exact Or.inl (List.mem_cons_of_mem a
                    ((List.takeWhile_sublist _).subset h''))
                · rcases ih _ c h'' with h3 | h3
                  · exact Or.inl (List.mem_cons_of_mem a (List.drop_subset _ _ h3))
                  · exact Or.inr h3
          · rw [if_neg hcond] at hc
            rcases List.mem_cons.mp hc with rfl | h
            · exact Or.inl (List.mem_cons_self _ _)
            · rcases ih rest c h with h' | h'
              · exact Or.inl (List.mem_cons_of_mem a h')
              · exact Or.inr h'

theorem mem_cleanZeroWidth (s : List Char) (c : Char) (hc : c ∈ cleanZeroWidth s) :
    c ∈ s ∨ c = ' ' := by
  unfold cleanZeroWidth at hc
  have h1 := List.mem_of_mem_filter hc
  have h2 := List.mem_of_mem_filter h1
  rcases List.mem_map.mp h2 with ⟨d, hd, he⟩
  by_cases hz : d = zwnj
  · rw [if_pos hz] at he
    exact Or.inr he.symm
  · rw [if_neg hz] at he
    exact Or.inl (he ▸ hd)

theorem mem_collapseWs : ∀ fuel s c, c ∈ collapseWs fuel s → c ∈ s ∨ c = ' ' := by
  intro fuel
  induction fuel with
  | zero =>
      intro s c hc
      cases s with
      | nil => simp [collapseWs] at hc
      | cons a rest => exact Or.inl (by simpa [collapseWs] using hc)
  | succ fuel ih =>
      intro s c hc
      cases s with
      | nil => simp [collapseWs] at hc
      | cons a rest =>
          rw [collapseWs] at hc
          by_cases hsp : isSpacePy a
          · rw [if_pos hsp] at hc
            rcases List.mem_cons.mp hc with rfl | h
            · exact Or.inr rfl
            · rcases ih _ c h with h' | h'
              · exact Or.inl (List.mem_cons_of_mem a
                  ((List.dropWhile_sublist _).subset h'))
              · exact Or.inr h'
          · rw [if_neg hsp] at hc
            rcases List.mem_cons.mp hc with rfl | h
            · exact Or.inl (List.mem_cons_self _ _)
            · rcases ih rest c h with h' | h'
              · exact Or.inl (List.mem_cons_of_mem a h')
              · exact Or.inr h'

theorem mem_pyStrip (s : List Char) (c : Char) (hc : c ∈ pyStrip s) : c ∈ s := by
  unfold pyStrip at hc
  have h1 := List.mem_reverse.mp hc
  have h2 := (List.dropWhile_sublist _).subset h1
  have h3 := List.mem_reverse.mp h2
  exact (List.dropWhile_sublist _).subset h3

/-! ## Claims C3 and C4 — the Persian digit/character tables -/

/-- The OCR-confusable Latin-looking glyphs handled by the step-4
`number_fixes` table. -/
def confusableDigitGlyphs : List Char :=
  ['O', 'l', 'I', 'Z', 'S', 'G', 'B', 'o']

/-- Eastern-Arabic digits, Persian digits, and the confusable glyphs: the
character classes C3 is about. -/
def nonAsciiDigitLikeChars : List Char :=
  easternDigits ++ persianDigits ++ confusableDigitGlyphs

/-- The members of `nonAsciiDigitLikeChars` not handled by the step-4
table; they are handled (mapped away) by the step-1 table instead and must
not reappear before step 4 runs. -/
def preBadChars : List Char :=
  easternDigits ++ ['o']

theorem mem_persianStep3 (u : List Char) (c : Char) (hc : c ∈ persianStep3 u) :
    c ∈ u ∨ c = ' ' := by
  unfold persianStep3 at hc
  rcases mem_subC _ _ c hc with h | rfl
  · rcases mem_subB _ _ c h with h' | rfl
    · rcases mem_subA _ _ c h' with h'' | rfl
      · exact Or.inl h''
      · exact Or.inr rfl
    · exact Or.inr rfl
  · exact Or.inr rfl

theorem persianStep5_avoid (bad : List Char) (hsp : (' ' : Char) ∉ bad)
    (u : List Char) (hu : ∀ d ∈ u, d ∉ bad) :
    ∀ c ∈ persianStep5 u, c ∉ bad := by
  intro c hc
  unfold persianStep5 at hc
  have h1 := mem_pyStrip _ c hc
  rcases mem_collapseWs _ _ c h1 with h2 | rfl
  · rcases mem_cleanZeroWidth _ c h2 with h3 | rfl
    · exact hu c h3
    · exact hsp
  · exact hsp

/-- C3 counterexample: the Eastern-Arabic digit ٥ (U+0665) and the
confusable glyph `S` are both normalized to the ASCII digit `"5"`, which
is not a Persian digit — so these character classes do not "appear as
Persian digit characters in the output". -/
theorem c3_not_persian_digits_counterexample :
    normalize_persian_text (String.mk [Char.ofNat 0x0665]) = "5"
    ∧ normalize_persian_text "S" = "5"
    ∧ ¬ '5' ∈ persianDigits :=
  ⟨by decide, by decide, by decide⟩

theorem string_data_mk (l : List Char) : (String.mk l).data = l := rfl

/-- C3 (amended): Persian-path normalization maps Eastern-Arabic digits
(via an intermediate Persian-digit form) and the OCR-confusable glyphs
(O, l, I, Z, S, G, B, o) to **ASCII** digits: for every input string, no
Eastern-Arabic digit, Persian digit, or confusable glyph occurs in the
output of `normalize_persian_text`. -/
theorem c3_digit_classes_amended (s : String) (c : Char)
    (hc : c ∈ (normalize_persian_text s).data) : c ∉ nonAsciiDigitLikeChars := by
  have dDomPre : ∀ x ∈ preBadChars, x ∈ replacementsTable.map Prod.fst := by decide
  have dOutPre1 : ∀ p ∈ replacementsTable,
      charTableFun replacementsTable p.1 ∉ preBadChars := by decide
  have dMerge : ∀ p ∈ characterMergingFixes, ∀ x ∈ p.2, x ∉ preBadChars := by decide
  have h1 : ∀ d ∈ applyCharTable replacementsTable s.data, d ∉ preBadChars := by
    intro d hd
    rw [applyCharTable_eq_map] at hd
    rcases List.mem_map.mp hd with ⟨e, he, rfl⟩
    exact charTableFun_avoid replacementsTable preBadChars dDomPre dOutPre1 e
  have h2 : ∀ d ∈ applyStrTable characterMergingFixes
      (applyCharTable replacementsTable s.data), d ∉ preBadChars := by
    intro d hd
    rcases mem_applyStrTable characterMergingFixes _ d hd with h | ⟨p, hp, hdp⟩
    · exact h1 d h
    · exact dMerge p hp d hdp
  have dOutPre4 : ∀ p ∈ numberFixesTable,
      charTableFun numberFixesTable p.1 ∉ preBadChars := by decide
  have dOutDom4 : ∀ p ∈ numberFixesTable,
      charTableFun numberFixesTable p.1 ∉ numberFixesTable.map Prod.fst := by decide
  have dSplit : ∀ x ∈ nonAsciiDigitLikeChars,
      x ∈ numberFixesTable.map Prod.fst ∨ x ∈ preBadChars := by decide
  have hspacePre : (' ' : Char) ∉ preBadChars := by decide
  have hspaceBad : (' ' : Char) ∉ nonAsciiDigitLikeChars := by decide
  have h3 : ∀ d ∈ persianStep3 (applyStrTable characterMergingFixes
      (applyCharTable replacementsTable s.data)), d ∉ preBadChars := by
    intro d hd
    rcases mem_persianStep3 _ d hd with h | rfl
    · exact h2 d h
    · exact hspacePre
  have h4 : ∀ d ∈ applyCharTable numberFixesTable (persianStep3
      (applyStrTable characterMergingFixes (applyCharTable replacementsTable s.data))),
      d ∉ nonAsciiDigitLikeChars := by
    intro d hd
    rw [applyCharTable_eq_map] at hd
    rcases List.mem_map.mp hd with ⟨e, he, rfl⟩
    intro hbad
    rcases dSplit _ hbad with hdom | hpre
    · exact charTableFun_avoid numberFixesTable (numberFixesTable.map Prod.fst)
        (fun x hx => hx) dOutDom4 e hdom
    · exact charTableFun_preserve numberFixesTable preBadChars dOutPre4 e (h3 e he) hpre
  have hmk : normalize_persian_text s = String.mk (persianStep5 (applyCharTable numberFixesTable
      (persianStep3 (applyStrTable characterMergingFixes
        (applyCharTable replacementsTable s.data))))) := rfl
  rw [hmk, string_data_mk] at hc
  exact persianStep5_avoid nonAsciiDigitLikeChars hspaceBad _ h4 c hc

/-- Witness for C3 (amended): the output character `'5'` produced from the
Eastern-Arabic digit input is not in any of the claim's character
classes. -/
theorem c3_digit_classes_amended_witness : '5' ∉ nonAsciiDigitLikeChars :=
  c3_digit_classes_amended (String.mk [Char.ofNat 0x0665]) '5' (by decide)

theorem map_map_lambda (f g : Char → Char) (u : List Char) :
    (u.map f).map g = u.map fun c => g (f c) := by
  rw [List.map_map]
  exact List.map_congr_left fun c _ => rfl

/-- The step-1 and step-4 replacement-table passes of
`normalize_persian_text`, composed as the source applies them (the
"Persian digit/character replacement tables"). -/
def persianTablesPass (s : List Char) : List Char :=
  applyCharTable numberFixesTable (applyCharTable replacementsTable s)

/-- A string of nine alefs (ا, U+0627). -/
def nineAlefs : String :=
  String.mk (List.replicate 9 (Char.ofNat 0x0627))

set_option maxRecDepth 8192 in
/-- C4 counterexample: `normalize_persian_text` is not idempotent.  On
nine alefs, the first pass splits the 9-character Persian run into 6+3
("اااااا ااا"), and the second pass splits the leading 6-character run
again ("ااا ااا ااا"), so running the function twice differs from running
it once. -/
theorem c4_not_idempotent_counterexample :
    normalize_persian_text (normalize_persian_text nineAlefs)
      ≠ normalize_persian_text nineAlefs := by decide

set_option maxRecDepth 8192 in
set_option maxHeartbeats 4000000 in
/-- C4 (amended): the Persian digit/character replacement tables
themselves are idempotent — applying the step-1/step-4 table pass twice
yields the same string as applying it once, for every input.  The full
`normalize_persian_text` is not idempotent, because the RTL/LTR
word-boundary regex re-splits Persian-script runs of length ≥ 6 on a
second pass. -/
theorem c4_tables_idempotent_amended (s : List Char) :
    persianTablesPass (persianTablesPass s) = persianTablesPass s := by
  have hpoint : ∀ x ∈ replacementsTable.map Prod.fst ++ numberFixesTable.map Prod.fst,
      charTableFun numberFixesTable (charTableFun replacementsTable
        (charTableFun numberFixesTable (charTableFun replacementsTable x)))
      = charTableFun numberFixesTable (charTableFun replacementsTable x) := by decide
  have hfun : ∀ c : Char,
      charTableFun numberFixesTable (charTableFun replacementsTable
        (charTableFun numberFixesTable (charTableFun replacementsTable c)))
      = charTableFun numberFixesTable (charTableFun replacementsTable c) := by
    intro c
    by_cases hc : c ∈ replacementsTable.map Prod.fst ++ numberFixesTable.map Prod.fst
    · exact hpoint c hc
    · have hc1 : c ∉ replacementsTable.map Prod.fst :=
        fun h => hc (List.mem_append.mpr (Or.inl h))
      have hc4 : c ∉ numberFixesTable.map Prod.fst :=
        fun h => hc (List.mem_append.mpr (Or.inr h))
      rw [charTableFun_eq_self replacementsTable c (ne_fst_of_not_mem_map_fst _ c hc1),
        charTableFun_eq_self numberFixesTable c (ne_fst_of_not_mem_map_fst _ c hc4),
        charTableFun_eq_self replacementsTable c (ne_fst_of_not_mem_map_fst _ c hc1),
        charTableFun_eq_self numberFixesTable c (ne_fst_of_not_mem_map_fst _ c hc4)]
  have hmap : ∀ u : List Char, persianTablesPass u
      = u.map fun c => charTableFun numberFixesTable (charTableFun replacementsTable c) := by
    intro u
    unfold persianTablesPass
    rw [applyCharTable_eq_map, applyCharTable_eq_map, map_map_lambda]
  rw [hmap, hmap, map_map_lambda]
  exact List.map_congr_left fun c _ => hfun c

/-! ## Claim C9 — structured extraction on the reference input -/

set_option maxRecDepth 8192 in
/-- C9: structured extraction on
`"Contact: a@b.com, 09123456789, date 2024-01-05"` yields exactly one
email (`"a@b.com"`), exactly one phone number (`"09123456789"`), and
exactly one date (`"2024-01-05"`). -/
theorem c9_structured_extraction_example :
    extract_structured_data "Contact: a@b.com, 09123456789, date 2024-01-05"
      = { phone_numbers := ["09123456789"], emails := ["a@b.com"],
          dates := ["2024-01-05"] } := by decide
